import Mathlib

/-!
Shallow embedding of the GenieAPI client (src/genieapi/GenieAPI.py).

The two pure cores modelled here are:

* the timed-lyrics formatter inside `get_lyrics` / `_make_lrc_file`
  (JSONP unwrapping, Python `int` key parsing, stable sort by numeric
  offset, `[MM:SS.cc]` rendering, newline join), and
* the search-result normalization inside `search_song` together with
  the URL normalization of `_get_thumbnail_url`.

Network transport, JSON decoding and HTML traversal are external
collaborators; they enter the model as explicit parameters (the decoded
search payload, a `jsonDecode` function, the outcome of the thumbnail
page fetch).  Machine-level caveat: Python `int()` also accepts
non-ASCII unicode digits; the model covers the ASCII fragment
(optional surrounding whitespace, optional sign, digits with single
interior underscores), which is the fragment all claims quantify over.
-/

namespace GenieAPI

/-- Decimal value of a digit list (underscores already removed). -/
def digitsVal (cs : List Char) : Nat :=
  cs.foldl (fun a c => a * 10 + (c.toNat - 48)) 0

/-- Python `int()` digit-run validity: nonempty, digits with single
interior underscores (no leading/trailing/doubled underscore). -/
def pyDigitsOk : List Char → Bool
  | [] => false
  | [c] => c.isDigit
  | c :: d :: rest =>
    if d = '_' then c.isDigit && pyDigitsOk rest
    else c.isDigit && pyDigitsOk (d :: rest)

/-- Strip leading and trailing whitespace, as Python `int()` does. -/
def pyTrim (cs : List Char) : List Char :=
  ((cs.dropWhile Char.isWhitespace).reverse.dropWhile Char.isWhitespace).reverse

/-- Model of Python `int(s)` on strings: optional surrounding
whitespace, optional sign, then a digit run; `none` models the
`ValueError` raised on anything else. -/
def pythonParseInt (s : String) : Option Int :=
  match pyTrim s.toList with
  | '-' :: rest =>
    if pyDigitsOk rest then some (-(digitsVal (rest.filter (fun c => c ≠ '_')) : Int)) else none
  | '+' :: rest =>
    if pyDigitsOk rest then some ((digitsVal (rest.filter (fun c => c ≠ '_')) : Int)) else none
  | rest =>
    if pyDigitsOk rest then some ((digitsVal (rest.filter (fun c => c ≠ '_')) : Int)) else none

/-- Closed form of the Python format spec `{x:02}` for integers:
zero-pad to width 2.  Only single-digit non-negative values are
shorter than 2 characters, so only they receive a leading zero. -/
def pad2 (x : Int) : String :=
  if 0 ≤ x ∧ x < 10 then "0" ++ toString x else toString x

/-- One rendered lyrics line
`f"[{t//60000:02}:{(t%60000)//1000:02}.{(t%1000)//10:02}] {lyric}"`,
with Python `//` and `%` being floor division and floor modulus. -/
def formatLine (t : Int) (lyric : String) : String :=
  "[" ++ pad2 (Int.fdiv t 60000) ++ ":" ++ pad2 (Int.fdiv (Int.fmod t 60000) 1000)
    ++ "." ++ pad2 (Int.fdiv (Int.fmod t 1000) 10) ++ "] " ++ lyric

/-- Insert an entry in front of the first element with a key that is
not smaller; building a sort with it by `foldr` yields exactly a
stable sort by key, which is the semantics of Python
`sorted(items, key=lambda x: int(x[0]))`. -/
def insertEntry (a : Int × String) : List (Int × String) → List (Int × String)
  | [] => [a]
  | b :: bs => if a.1 ≤ b.1 then a :: b :: bs else b :: insertEntry a bs

/-- Stable sort of parsed entries by numeric offset. -/
def sortEntries (es : List (Int × String)) : List (Int × String) :=
  List.foldr insertEntry [] es

/-- Parse every key of the payload with Python `int`; a single failing
key is a `ValueError` for the whole call (`none`). The payload is the
item list of the decoded JSON object, in insertion order. -/
def parsedEntries : List (String × String) → Option (List (Int × String))
  | [] => some []
  | kv :: P =>
    match pythonParseInt kv.1 with
    | none => none
    | some t =>
      match parsedEntries P with
      | none => none
      | some es => some ((t, kv.2) :: es)

/-- The lyrics formatter of `get_lyrics`: parse keys, sort stably by
numeric offset, render each line, join with a single newline. -/
def formatLyrics (P : List (String × String)) : Option String :=
  Option.map
    (fun es => String.intercalate "\n" (List.map (fun e => formatLine e.1 e.2) (sortEntries es)))
    (parsedEntries P)

/-- Index of the first occurrence of `c`, Python `str.index`
(`none` models the `ValueError` on a missing character). -/
def firstIdx : List Char → Char → Option Nat
  | [], _ => none
  | x :: xs, c => if x = c then some 0 else Option.map (fun n => n + 1) (firstIdx xs c)

/-- Index of the last occurrence of `c`, Python `str.rindex`. -/
def lastIdx : List Char → Char → Option Nat
  | [], _ => none
  | x :: xs, c =>
    match lastIdx xs c with
    | some n => some (n + 1)
    | none => if x = c then some 0 else none

/-- The JSONP unwrapping of `get_lyrics`:
`text[text.index("(") + 1 : text.rindex(")")]`.  Python slices clamp,
so a last `)` at or before the first `(` yields the empty string. -/
def extractWrapper (text : String) : Option String :=
  match firstIdx text.toList '(' , lastIdx text.toList ')' with
  | some i, some j => some (String.mk (((text.toList).drop (i + 1)).take (j - (i + 1))))
  | _, _ => none

/-- Unwrap the JSONP envelope and decode the inner text; `jsonDecode`
stands for the external `json.loads` collaborator, returning the
object item list in document order (`none` = `JSONDecodeError`). -/
def parse_raw_payload (jsonDecode : String → Option (List (String × String)))
    (text : String) : Option (List (String × String)) :=
  match extractWrapper text with
  | none => none
  | some s => jsonDecode s

/-- The pure tail of `get_lyrics` applied to a fetched response body:
any `ValueError`/`JSONDecodeError` along the way is caught and turned
into `None`. -/
def get_lyrics (jsonDecode : String → Option (List (String × String)))
    (text : String) : Option String :=
  Option.bind (parse_raw_payload jsonDecode text) formatLyrics

/-- One decoded record of the search response's `song` list; each
field is optional because the upstream JSON may omit it. -/
structure SongRecord where
  word : Option String
  id : Option String
  field1 : Option String
deriving DecidableEq

/-- Error channel of `search_song`: `invalidArgument` is the
`ValueError` on a bad limit, `unexpectedResponseShape` the
`GenieScraperError` raised from a caught `KeyError`/`IndexError`. -/
inductive SearchError
  | invalidArgument
  | unexpectedResponseShape
deriving DecidableEq

/-- One returned tuple `(song["word"], song_id, song.get("field1", ""),
thumbnail_url)`. -/
abbrev Summary := String × String × String × Option String

/-- The loop body of `search_song` over the truncated record list.
`thumb` is `_get_thumbnail_url`, which never raises (it catches every
exception and returns `None`).  `song["id"]` and `song["word"]` are
plain subscripts: a missing key raises `KeyError`, caught by the
enclosing handler and re-raised as the shape error, aborting the whole
call. -/
def processRecords (thumb : String → Option String) :
    List SongRecord → Except SearchError (List Summary)
  | [] => .ok []
  | r :: rs =>
    match r.id with
    | none => .error .unexpectedResponseShape
    | some sid =>
      let tn := thumb sid
      match r.word with
      | none => .error .unexpectedResponseShape
      | some w =>
        match processRecords thumb rs with
        | .error e => .error e
        | .ok rest => .ok ((w, sid, r.field1.getD "", tn) :: rest)

/-- Model of `search_song` after the transport succeeded and the body decoded:
`dataSong` is `data.get("song", ...)` — `none` when the `song` key is
absent, in which case the loop `for i in range(min(limit, len([])))`
runs zero times.  The limit check precedes the network call in the
source; here that shows as the result being `invalidArgument`
uniformly in `thumb` and `dataSong`.  `range(min(limit, len(...)))`
with subscripting is exactly `List.take limit.toNat`. -/
def search_song (thumb : String → Option String)
    (dataSong : Option (List SongRecord)) (limit : Int) :
    Except SearchError (List Summary) :=
  if ¬(1 ≤ limit ∧ limit ≤ 4) then .error .invalidArgument
  else processRecords thumb ((dataSong.getD []).take limit.toNat)

/-- Projection of a record to its summary, used to state that
`search_song` returns the records in their given order. -/
def mkSummary (thumb : String → Option String) (r : SongRecord) : Summary :=
  (r.word.getD "", r.id.getD "", r.field1.getD "", thumb (r.id.getD ""))

/-- A summary with the best-effort thumbnail field erased. -/
def stripThumb (s : Summary) : String × String × String :=
  (s.1, s.2.1, s.2.2.1)

/-- Python `str.startswith`. -/
def pyStartsWith (pre s : String) : Bool :=
  List.isPrefixOf pre.toList s.toList

/-- Fuel-indexed core of Python `s.replace(pat, "")`: remove the
leftmost occurrence of `pat`, continue scanning after it.  The fuel
only serves structural recursion; it is always called with
`fuel = s.length`. -/
def removeAllFuel (pat : List Char) : Nat → List Char → List Char
  | _, [] => []
  | 0, s => s
  | fuel + 1, c :: cs =>
    if List.isPrefixOf pat (c :: cs) ∧ pat ≠ [] then
      removeAllFuel pat fuel (List.drop pat.length (c :: cs))
    else c :: removeAllFuel pat fuel cs

/-- Python `s.replace(pat, "")`: delete all leftmost non-overlapping
occurrences of `pat`. -/
def removeAll (pat s : List Char) : List Char :=
  removeAllFuel pat s.length s

/-- The resize-suffix stripped from thumbnail URLs. -/
def dimsPat : String := "/dims/resize/Q_80,0"

/-- URL normalization inside `_get_thumbnail_url`: prepend `https:` to
a protocol-relative URL, then `img_url.replace("/dims/resize/Q_80,0", "")`. -/
def normalize_img_url (u : String) : String :=
  let u1 := if pyStartsWith "//" u then "https:" ++ u else u
  String.mk (removeAll dimsPat.toList u1.toList)

/-- Outcome of the thumbnail page fetch and markup lookup, abstracting
the transport and BeautifulSoup collaborators: either some raised
exception, or the retrieved page reduced to the `src` attribute of the
selected `img` (absent when the element or attribute is missing). -/
inductive ThumbFetch
  | failed
  | page (src : Option String)

/-- Model of `_get_thumbnail_url`: every exception is caught and becomes `None`;
a present `src` attribute is normalized before being returned. -/
def get_thumbnail_url : ThumbFetch → Option String
  | .failed => none
  | .page none => none
  | .page (some u) => some (normalize_img_url u)

/-- Spec-side definition (for the refinement claim about extra-info):
split once on the first occurrence of the separator; without a
separator the whole string is the artist and the album is empty. -/
def findSub (pat : List Char) : List Char → Option (List Char × List Char)
  | [] => none
  | c :: cs =>
    if List.isPrefixOf pat (c :: cs) then some ([], List.drop pat.length (c :: cs))
    else Option.map (fun p => (c :: p.1, p.2)) (findSub pat cs)

/-- Spec-side definition: the `(artist, album)` split of the extra-info
text described by the specification, a pure string operation. -/
def spec_split_extra (s : String) : String × String :=
  match findSub " - ".toList s.toList with
  | some p => (String.mk p.1, String.mk p.2)
  | none => (s, "")

/-- Spec-side definition: zero-pad a non-negative number to two digits. -/
def spec_pad2 (n : Nat) : String :=
  if n < 10 then "0" ++ toString n else toString n

/-! ### Helper lemmas about the search normalization -/

/-- A successful `search_song` loop returns exactly the summaries of
the processed records, in their order. -/
theorem processRecords_ok (thumb : String → Option String) :
    ∀ (l : List SongRecord) (res : List Summary),
      processRecords thumb l = .ok res → res = List.map (mkSummary thumb) l := by
  intro l
  induction l with
  | nil =>
    intro res h
    simp [processRecords] at h
    simp [h.symm]
  | cons r rs ih =>
    intro res h
    cases hid : r.id with
    | none => simp [processRecords, hid] at h
    | some sid =>
      cases hw : r.word with
      | none => simp [processRecords, hid, hw] at h
      | some w =>
        cases hrec : processRecords thumb rs with
        | error e => simp [processRecords, hid, hw, hrec] at h
        | ok rest =>
          simp [processRecords, hid, hw, hrec] at h
          simp [h.symm, mkSummary, hid, hw, ih rest hrec]

/-- The thumbnail collaborator influences only the thumbnail field:
stripping it makes the loop result independent of the collaborator. -/
theorem processRecords_strip (t1 t2 : String → Option String) :
    ∀ l : List SongRecord,
      Except.map (List.map stripThumb) (processRecords t1 l)
        = Except.map (List.map stripThumb) (processRecords t2 l) := by
  intro l
  induction l with
  | nil => rfl
  | cons r rs ih =>
    cases hid : r.id with
    | none => simp [processRecords, hid]
    | some sid =>
      cases hw : r.word with
      | none => simp [processRecords, hid, hw]
      | some w =>
        cases h1 : processRecords t1 rs with
        | error e1 =>
          cases h2 : processRecords t2 rs with
          | error e2 =>
            simp [Except.map, h1, h2] at ih
            simp [processRecords, hid, hw, h1, h2, ih]
          | ok rest2 => simp [Except.map, h1, h2] at ih
        | ok rest1 =>
          cases h2 : processRecords t2 rs with
          | error e2 => simp [Except.map, h1, h2] at ih
          | ok rest2 =>
            simp [Except.map, h1, h2] at ih
            simp [processRecords, hid, hw, h1, h2, Except.map, stripThumb, ih]

/-! ### C1 -/

/-- Claim C1, counterexample: the normalizer does not split the extra-info
text on `" - "`; it returns it verbatim as a single field.  At the
spec's own example the output field is the full `"Artist A - Album B"`
rather than the artist component of the split. -/
theorem search_extra_info_not_split :
    search_song (fun _ => none) (some [⟨some "T", some "I", some "Artist A - Album B"⟩]) 1
        = .ok [("T", "I", "Artist A - Album B", none)]
      ∧ spec_split_extra "Artist A - Album B" = ("Artist A", "Album B")
      ∧ ("Artist A - Album B" : String) ≠ "Artist A" :=
  ⟨rfl, by decide, by decide⟩

/-- Claim C1 (amended): for every search record, the whole extra-info string
is passed through verbatim as the third component of the summary — no
`(artist, album)` split is performed, and no network call is involved
in producing that field. -/
theorem search_extra_info_verbatim (thumb : String → Option String) (w i e : String) :
    search_song thumb (some [⟨some w, some i, some e⟩]) 1 = .ok [(w, i, e, thumb i)] := by
  simp [search_song, processRecords, List.take]

/-! ### C3 -/

/-- Claim C3, counterexample: a response that decodes but lacks the `song`
list does not raise the shape error — `data.get("song", [])` turns it
into an empty record list and the call returns `[]`. -/
theorem search_missing_song_field_returns_empty :
    search_song (fun _ => none) none 1 = .ok [] := by
  simp [search_song, processRecords]

/-- Claim C3 (amended): for every valid limit, a search response lacking the
expected list-of-records field yields the empty result list; the shape
error is reserved for records missing a required field. -/
theorem search_missing_song_field_ok_empty (thumb : String → Option String) (limit : Int)
    (h1 : 1 ≤ limit) (h2 : limit ≤ 4) :
    search_song thumb none limit = .ok [] := by
  simp [search_song, h1, h2, processRecords]

/-- Witness for the amended C3 at `limit = 3`. -/
theorem search_missing_song_field_ok_empty_witness :
    search_song (fun _ => none) none 3 = .ok [] :=
  search_missing_song_field_ok_empty (fun _ => none) 3 (by decide) (by decide)

/-! ### C9 -/

/-- Claim C9, counterexample: a record with an identifier but no title field
does not default the title to the empty string — `song["word"]` raises
`KeyError` and the call fails with the shape error. -/
theorem search_missing_title_errors :
    search_song (fun _ => none) (some [⟨none, some "12345", some "extra"⟩]) 1
      = .error .unexpectedResponseShape := by
  simp [search_song, processRecords]

/-- Claim C9 (amended): absence of the identifier or of the title field each
raises the shape error, not a silent skip; it is the extra-info field
that defaults to the empty string when absent. -/
theorem search_required_fields_and_defaults (thumb : String → Option String)
    (w i e : String) (f : Option String) :
    search_song thumb (some [⟨some w, none, some e⟩]) 1 = .error .unexpectedResponseShape
      ∧ search_song thumb (some [⟨none, some i, f⟩]) 1 = .error .unexpectedResponseShape
      ∧ search_song thumb (some [⟨some w, some i, none⟩]) 1 = .ok [(w, i, "", thumb i)] := by
  refine ⟨?_, ?_, ?_⟩ <;> simp [search_song, processRecords, List.take]

/-! ### C2 -/

/-- Claim C2, counterexample: the key `"-5"` does not parse as a
non-negative integer, yet the formatter accepts it — Python `int`
admits a sign, so the call succeeds and renders a negative tag instead
of failing. -/
theorem formatLyrics_negative_key_accepted :
    pythonParseInt "-5" = some (-5)
      ∧ formatLyrics [("-5", "x")] = some "[-1:59.99] x" :=
  ⟨by decide, by decide⟩

/-- Claim C2 (amended): a payload with a key that does not parse as an
integer at all (Python `int` semantics, sign allowed) fails as a whole:
no partial output for the remaining entries is ever produced. -/
theorem formatLyrics_bad_key_fails_whole_call (P : List (String × String))
    (h : ∃ kv ∈ P, pythonParseInt kv.1 = none) :
    formatLyrics P = none := by
  obtain ⟨kv, hmem, hkv⟩ := h
  have hparse : parsedEntries P = none := by
    induction P with
    | nil => cases hmem
    | cons a P ih =>
      rcases List.mem_cons.1 hmem with rfl | hm
      · simp [parsedEntries, hkv]
      · cases h1 : pythonParseInt a.1 with
        | none => simp [parsedEntries, h1]
        | some t => simp [parsedEntries, h1, ih hm]
  simp [formatLyrics, hparse]

/-- Witness for the amended C2: one malformed key poisons the call
even though another entry is well-formed. -/
theorem formatLyrics_bad_key_fails_whole_call_witness :
    formatLyrics [("12a", "x"), ("0", "y")] = none :=
  formatLyrics_bad_key_fails_whole_call _ ⟨("12a", "x"), by decide, by decide⟩

/-! ### C4 -/

/-- Floor division of the embedded Nat offsets agrees with Nat division. -/
theorem fdiv_coe (a b : Nat) : Int.fdiv ((a : Nat) : Int) ((b : Nat) : Int) = ((a / b : Nat) : Int) :=
  (Int.ofNat_fdiv a b).symm

/-- Floor modulus of the embedded Nat offsets agrees with Nat modulus. -/
theorem fmod_coe (a b : Nat) : Int.fmod ((a : Nat) : Int) ((b : Nat) : Int) = ((a % b : Nat) : Int) :=
  (Int.ofNat_fmod a b).symm

/-- On non-negative values the Python width-2 zero pad is the
two-digit zero pad of the spec. -/
theorem pad2_coe (n : Nat) : pad2 ((n : Nat) : Int) = spec_pad2 n := by
  have ht : toString ((n : Nat) : Int) = toString n := rfl
  by_cases h : n < 10
  · have hc : 0 ≤ ((n : Nat) : Int) ∧ ((n : Nat) : Int) < 10 := by omega
    simp [pad2, spec_pad2, h, hc, ht]
  · have hc : ¬(0 ≤ ((n : Nat) : Int) ∧ ((n : Nat) : Int) < 10) := by omega
    simp [pad2, spec_pad2, h, hc, ht]

/-- Claim C4: each entry with offset `t` (milliseconds, non-negative)
renders as `[MM:SS.cc] text` with `MM = t div 60000`,
`SS = t mod 60000 div 1000`, `cc = t mod 1000 div 10`, each zero
padded to two digits and the text appended verbatim; and the spec's
example payload formats to exactly the stated two lines. -/
theorem formatLine_decomposition_and_example :
    (∀ (t : Nat) (txt : String),
        formatLine ((t : Nat) : Int) txt
          = "[" ++ spec_pad2 (t / 60000) ++ ":" ++ spec_pad2 (t % 60000 / 1000)
              ++ "." ++ spec_pad2 (t % 1000 / 10) ++ "] " ++ txt)
      ∧ formatLyrics [("1500", "hello"), ("500", "world")]
          = some "[00:00.50] world\n[00:01.50] hello" := by
  constructor
  · intro t txt
    have h1 : (60000 : Int) = ((60000 : Nat) : Int) := rfl
    have h2 : (1000 : Int) = ((1000 : Nat) : Int) := rfl
    have h3 : (10 : Int) = ((10 : Nat) : Int) := rfl
    rw [formatLine, h1, h2, h3, fdiv_coe, fmod_coe, fmod_coe, fdiv_coe, fdiv_coe,
      pad2_coe, pad2_coe, pad2_coe]
  · decide

/-! ### C5: lemmas about the stable insertion into a sorted list -/

theorem sortEntries_cons (e : Int × String) (es : List (Int × String)) :
    sortEntries (e :: es) = insertEntry e (sortEntries es) := rfl

theorem mem_insertEntry (a x : Int × String) :
    ∀ l : List (Int × String), x ∈ insertEntry a l ↔ x = a ∨ x ∈ l := by
  intro l
  induction l with
  | nil => simp [insertEntry]
  | cons b bs ih =>
    by_cases h : a.1 ≤ b.1
    · simp [insertEntry, h]
    · simp [insertEntry, h, ih]
      tauto

theorem length_insertEntry (a : Int × String) :
    ∀ l : List (Int × String), (insertEntry a l).length = l.length + 1 := by
  intro l
  induction l with
  | nil => rfl
  | cons b bs ih => by_cases h : a.1 ≤ b.1 <;> simp [insertEntry, h, ih]

theorem pairwise_insertEntry (a : Int × String) :
    ∀ l : List (Int × String),
      List.Pairwise (fun x y : Int × String => x.1 ≤ y.1) l →
        List.Pairwise (fun x y : Int × String => x.1 ≤ y.1) (insertEntry a l) := by
  intro l
  induction l with
  | nil => intro _; simp [insertEntry]
  | cons b bs ih =>
    intro hp
    rcases List.pairwise_cons.1 hp with ⟨hb, hbs⟩
    by_cases h : a.1 ≤ b.1
    · simp only [insertEntry, if_pos h]
      refine List.pairwise_cons.2 ⟨?_, hp⟩
      intro y hy
      rcases List.mem_cons.1 hy with rfl | hy2
      · exact h
      · exact le_trans h (hb y hy2)
    · simp only [insertEntry, if_neg h]
      refine List.pairwise_cons.2 ⟨?_, ih hbs⟩
      intro y hy
      rcases (mem_insertEntry a y bs).1 hy with rfl | hy2
      · exact le_of_not_le h
      · exact hb y hy2

theorem filter_insertEntry (a : Int × String) (k : Int) :
    ∀ l : List (Int × String),
      List.filter (fun e => e.1 == k) (insertEntry a l)
        = if a.1 = k then a :: List.filter (fun e => e.1 == k) l
          else List.filter (fun e => e.1 == k) l := by
  intro l
  induction l with
  | nil => by_cases h : a.1 = k <;> simp [insertEntry, h]
  | cons b bs ih =>
    simp only [insertEntry]
    by_cases hab : a.1 ≤ b.1
    · rw [if_pos hab]
      by_cases h : a.1 = k <;> by_cases hbk : b.1 = k <;>
        simp [List.filter_cons, h, hbk]
    · rw [if_neg hab]
      by_cases h : a.1 = k
      · have hbk : ¬(b.1 = k) := by omega
        simp [List.filter_cons, h, hbk, ih]
      · by_cases hbk : b.1 = k <;> simp [List.filter_cons, h, hbk, ih]

theorem length_sortEntries (es : List (Int × String)) :
    (sortEntries es).length = es.length := by
  induction es with
  | nil => rfl
  | cons e es ih =>
    rw [sortEntries_cons, length_insertEntry, ih]
    rfl

theorem pairwise_sortEntries (es : List (Int × String)) :
    List.Pairwise (fun x y : Int × String => x.1 ≤ y.1) (sortEntries es) := by
  induction es with
  | nil => simp [sortEntries]
  | cons e es ih => rw [sortEntries_cons]; exact pairwise_insertEntry e _ ih

/-- Stability: entries whose keys coincide keep their input order —
restricting the sorted list to any one key gives exactly the input
restricted to that key. -/
theorem filter_sortEntries (k : Int) (es : List (Int × String)) :
    List.filter (fun e => e.1 == k) (sortEntries es)
      = List.filter (fun e => e.1 == k) es := by
  induction es with
  | nil => rfl
  | cons e es ih =>
    rw [sortEntries_cons, filter_insertEntry]
    by_cases h : e.1 = k <;> simp [h, ih]

theorem parsedEntries_length :
    ∀ (P : List (String × String)) (es : List (Int × String)),
      parsedEntries P = some es → es.length = P.length := by
  intro P
  induction P with
  | nil =>
    intro es h
    simp [parsedEntries] at h
    simp [h.symm]
  | cons kv P ih =>
    intro es h
    cases h1 : pythonParseInt kv.1 with
    | none => simp [parsedEntries, h1] at h
    | some t =>
      cases h2 : parsedEntries P with
      | none => simp [parsedEntries, h1, h2] at h
      | some es2 =>
        simp [parsedEntries, h1, h2] at h
        simp [h.symm, ih es2 h2]

/-- Claim C5: on a valid payload the output is the newline join (no trailing
newline) of one rendered line per entry, so the line list has exactly
`len(P)` elements; the rendered entries are in non-decreasing key
order; and entries with equal numeric keys keep their input order. -/
theorem formatLyrics_count_order_stability (P : List (String × String))
    (es : List (Int × String)) (k : Int) (h : parsedEntries P = some es) :
    formatLyrics P
        = some (String.intercalate "\n"
            (List.map (fun e => formatLine e.1 e.2) (sortEntries es)))
      ∧ (List.map (fun e => formatLine e.1 e.2) (sortEntries es)).length = P.length
      ∧ List.Pairwise (fun x y : Int × String => x.1 ≤ y.1) (sortEntries es)
      ∧ List.filter (fun e => e.1 == k) (sortEntries es)
          = List.filter (fun e => e.1 == k) es := by
  refine ⟨?_, ?_, pairwise_sortEntries es, filter_sortEntries k es⟩
  · simp [formatLyrics, h]
  · rw [List.length_map, length_sortEntries, parsedEntries_length P es h]

/-- Witness for C5 on a payload with a duplicate numeric offset
(written `"0"` and `"00"`): three lines, sorted, tie kept in input
order. -/
theorem formatLyrics_count_order_stability_witness :
    formatLyrics [("0", "a"), ("00", "b"), ("1500", "hello")]
        = some (String.intercalate "\n"
            (List.map (fun e => formatLine e.1 e.2)
              (sortEntries [((0 : Int), "a"), (0, "b"), (1500, "hello")])))
      ∧ (List.map (fun e => formatLine e.1 e.2)
          (sortEntries [((0 : Int), "a"), (0, "b"), (1500, "hello")])).length
          = [("0", "a"), ("00", "b"), ("1500", "hello")].length
      ∧ List.Pairwise (fun x y : Int × String => x.1 ≤ y.1)
          (sortEntries [((0 : Int), "a"), (0, "b"), (1500, "hello")])
      ∧ List.filter (fun e => e.1 == (0 : Int))
            (sortEntries [((0 : Int), "a"), (0, "b"), (1500, "hello")])
          = List.filter (fun e => e.1 == (0 : Int))
            [((0 : Int), "a"), (0, "b"), (1500, "hello")] :=
  formatLyrics_count_order_stability _ _ 0 (by decide)

/-! ### C6 -/

/-- Claim C6: a limit outside `[1, 4]` fails with the argument error
uniformly in the response data and the enrichment collaborator (the
check precedes any network or parsing work); for an accepted limit a
successful call returns the summaries of the first `limit` records of
the response, in their given order — hence at most `limit` of them. -/
theorem search_limit_validation_and_truncation :
    (∀ (limit : Int) (thumb : String → Option String) (ds : Option (List SongRecord)),
        ¬(1 ≤ limit ∧ limit ≤ 4) → search_song thumb ds limit = .error .invalidArgument)
      ∧ (∀ (limit : Int) (thumb : String → Option String) (ds : Option (List SongRecord))
          (res : List Summary), search_song thumb ds limit = .ok res →
            res.length ≤ limit.toNat
              ∧ res = List.map (mkSummary thumb) ((ds.getD []).take limit.toNat)) := by
  constructor
  · intro limit thumb ds h
    simp [search_song, h]
  · intro limit thumb ds res h
    by_cases hl : 1 ≤ limit ∧ limit ≤ 4
    · simp only [search_song, if_neg (not_not_intro hl)] at h
      have hres := processRecords_ok thumb _ res h
      refine ⟨?_, hres⟩
      rw [hres, List.length_map, List.length_take]
      exact min_le_left _ _
    · simp only [search_song, if_pos hl] at h
      cases h

/-- Witness for C6: limit `0` is rejected; limit `2` on a three-record
response returns exactly the first two summaries. -/
theorem search_limit_validation_and_truncation_witness :
    search_song (fun _ => none)
        (some [⟨some "W", some "I", some "A - B"⟩, ⟨some "W2", some "I2", none⟩,
          ⟨some "W3", some "I3", none⟩]) 0 = .error .invalidArgument
      ∧ ([("W", "I", "A - B", none), ("W2", "I2", "", none)] : List Summary).length
          ≤ (2 : Int).toNat
      ∧ ([("W", "I", "A - B", none), ("W2", "I2", "", none)] : List Summary)
          = List.map (mkSummary (fun _ => none))
            (((some [⟨some "W", some "I", some "A - B"⟩, ⟨some "W2", some "I2", none⟩,
              ⟨some "W3", some "I3", none⟩] : Option (List SongRecord)).getD
                []).take (2 : Int).toNat) := by
  have h2 := search_limit_validation_and_truncation.2 2 (fun _ => none)
    (some [⟨some "W", some "I", some "A - B"⟩, ⟨some "W2", some "I2", none⟩,
      ⟨some "W3", some "I3", none⟩])
    [("W", "I", "A - B", none), ("W2", "I2", "", none)] rfl
  exact ⟨search_limit_validation_and_truncation.1 0 (fun _ => none) _ (by decide),
    h2.1, h2.2⟩

/-! ### C7: lemmas about first/last index and the JSONP wrapper -/

theorem firstIdx_eq_none (c : Char) :
    ∀ cs : List Char, firstIdx cs c = none ↔ c ∉ cs := by
  intro cs
  induction cs with
  | nil => simp [firstIdx]
  | cons x xs ih =>
    by_cases h : x = c
    · simp [firstIdx, h]
    · have hstep : firstIdx (x :: xs) c = Option.map (fun n => n + 1) (firstIdx xs c) := by
        simp [firstIdx, h]
      rw [hstep]
      constructor
      · intro hm
        have hn : firstIdx xs c = none := by
          cases hfx : firstIdx xs c with
          | none => rfl
          | some n => rw [hfx] at hm; cases hm
        intro hmem
        rcases List.mem_cons.1 hmem with rfl | hmem2
        · exact h rfl
        · exact (ih.1 hn) hmem2
      · intro hmem
        have hxs : c ∉ xs := fun h2 => hmem (List.mem_cons_of_mem x h2)
        rw [ih.2 hxs]
        rfl

theorem lastIdx_eq_none (c : Char) :
    ∀ cs : List Char, lastIdx cs c = none ↔ c ∉ cs := by
  intro cs
  induction cs with
  | nil => simp [lastIdx]
  | cons x xs ih =>
    cases hx : lastIdx xs c with
    | some n =>
      have hstep : lastIdx (x :: xs) c = some (n + 1) := by simp [lastIdx, hx]
      rw [hstep]
      constructor
      · intro hm; cases hm
      · intro hmem
        exfalso
        have hcx : c ∈ xs := by
          by_contra hc
          rw [ih.2 hc] at hx
          cases hx
        exact hmem (List.mem_cons_of_mem x hcx)
    | none =>
      by_cases h : x = c
      · have hstep : lastIdx (x :: xs) c = some 0 := by simp [lastIdx, hx, h]
        rw [hstep]
        constructor
        · intro hm; cases hm
        · intro hmem
          exfalso
          refine hmem ?_
          rw [← h]
          exact List.mem_cons_self x xs
      · have hstep : lastIdx (x :: xs) c = none := by simp [lastIdx, hx, h]
        rw [hstep]
        constructor
        · intro _ hmem
          rcases List.mem_cons.1 hmem with rfl | hm2
          · exact h rfl
          · exact (ih.1 hx) hm2
        · intro _; rfl

theorem firstIdx_append (c : Char) :
    ∀ (a r : List Char), c ∉ a → firstIdx (a ++ c :: r) c = some a.length := by
  intro a
  induction a with
  | nil => intro r _; simp [firstIdx]
  | cons x xs ih =>
    intro r h
    have hx : ¬(x = c) := fun he => h (by simp [he])
    have hxs : c ∉ xs := fun hc => h (by simp [hc])
    simp [firstIdx, hx, ih r hxs]

theorem lastIdx_append (c : Char) :
    ∀ (l b : List Char), c ∉ b → lastIdx (l ++ c :: b) c = some l.length := by
  intro l
  induction l with
  | nil =>
    intro b h
    simp [lastIdx, (lastIdx_eq_none c b).2 h]
  | cons x xs ih =>
    intro b h
    simp [lastIdx, ih b h]

/-- The unwrapping takes exactly the text strictly between the first
`(` and the last `)`. -/
theorem extractWrapper_decompose (a m b : List Char)
    (ha : '(' ∉ a) (hb : ')' ∉ b) :
    extractWrapper (String.mk (a ++ '(' :: (m ++ ')' :: b))) = some (String.mk m) := by
  have hshape : a ++ '(' :: (m ++ ')' :: b) = (a ++ '(' :: m) ++ ')' :: b := by
    simp
  have hfi : firstIdx (a ++ '(' :: (m ++ ')' :: b)) '(' = some a.length :=
    firstIdx_append '(' a (m ++ ')' :: b) ha
  have hla : lastIdx (a ++ '(' :: (m ++ ')' :: b)) ')' = some (a.length + 1 + m.length) := by
    rw [hshape, lastIdx_append ')' (a ++ '(' :: m) b hb]
    simp
    omega
  have htl : (String.mk (a ++ '(' :: (m ++ ')' :: b))).toList
      = a ++ '(' :: (m ++ ')' :: b) := rfl
  simp only [extractWrapper, htl, hfi, hla]
  have hdrop : (a ++ '(' :: (m ++ ')' :: b)).drop (a.length + 1) = m ++ ')' :: b := by
    have : a ++ '(' :: (m ++ ')' :: b) = (a ++ ['(']) ++ (m ++ ')' :: b) := by simp
    rw [this, List.drop_left' (by simp)]
  have htake : (m ++ ')' :: b).take m.length = m := List.take_left m _
  rw [hdrop]
  have harith : a.length + 1 + m.length - (a.length + 1) = m.length := by omega
  rw [harith, htake]

/-- Claim C7: unwrapping fails (whole call is the malformed-lyrics error)
when either delimiter is missing; otherwise the decoder is applied to
exactly the text strictly between the first `(` and the last `)`, so
the call fails iff that text is not valid structured data. -/
theorem parse_raw_payload_delimiters :
    (∀ (jd : String → Option (List (String × String))) (text : String),
        ('(' ∉ text.toList ∨ ')' ∉ text.toList) → parse_raw_payload jd text = none)
      ∧ (∀ (jd : String → Option (List (String × String))) (a m b : List Char),
          '(' ∉ a → ')' ∉ b →
            parse_raw_payload jd (String.mk (a ++ '(' :: (m ++ ')' :: b)))
              = jd (String.mk m)) := by
  constructor
  · intro jd text h
    rcases h with h | h
    · have h1 : firstIdx text.data '(' = none := (firstIdx_eq_none '(' text.toList).2 h
      simp [parse_raw_payload, extractWrapper, h1]
    · have h1 : lastIdx text.data ')' = none := (lastIdx_eq_none ')' text.toList).2 h
      cases hfi : firstIdx text.data '(' <;>
        simp [parse_raw_payload, extractWrapper, hfi, h1]
  · intro jd a m b ha hb
    simp [parse_raw_payload, extractWrapper_decompose a m b ha hb]

/-- Witness for C7: a text with no parentheses fails; a wrapped text
hands exactly the inner region to the decoder. -/
theorem parse_raw_payload_delimiters_witness :
    parse_raw_payload (fun _ => none) "abc" = none
      ∧ parse_raw_payload (fun s => some [("0", s)])
          (String.mk (['x'] ++ '(' :: ("QQ".toList ++ ')' :: ['y'])))
          = some [("0", String.mk "QQ".toList)] := by
  refine ⟨parse_raw_payload_delimiters.1 (fun _ => none) "abc" (Or.inl (by decide)), ?_⟩
  exact parse_raw_payload_delimiters.2 (fun s => some [("0", s)]) ['x'] "QQ".toList ['y']
    (by decide) (by decide)

/-! ### C8 -/

/-- Claim C8: a failed or empty thumbnail lookup degrades to `None`; the
search result with the thumbnail field stripped is independent of the
enrichment collaborator (so enrichment failures can never change
success, record count or the other fields); and with an
always-failing collaborator every record still appears, carrying the
absent sentinel in its thumbnail field. -/
theorem search_enrichment_never_propagates :
    get_thumbnail_url .failed = none
      ∧ get_thumbnail_url (.page none) = none
      ∧ (∀ (t1 t2 : String → Option String) (ds : Option (List SongRecord)) (limit : Int),
          Except.map (List.map stripThumb) (search_song t1 ds limit)
            = Except.map (List.map stripThumb) (search_song t2 ds limit))
      ∧ (∀ (ds : Option (List SongRecord)) (limit : Int) (res : List Summary),
          search_song (fun _ => none) ds limit = .ok res →
            ∀ s ∈ res, s.2.2.2 = none) := by
  refine ⟨rfl, rfl, ?_, ?_⟩
  · intro t1 t2 ds limit
    by_cases hl : 1 ≤ limit ∧ limit ≤ 4
    · simp only [search_song, if_neg (not_not_intro hl)]
      exact processRecords_strip t1 t2 _
    · simp only [search_song, if_pos hl]
  · intro ds limit res h
    by_cases hl : 1 ≤ limit ∧ limit ≤ 4
    · simp only [search_song, if_neg (not_not_intro hl)] at h
      have hres := processRecords_ok _ _ _ h
      intro s hs
      rw [hres] at hs
      rcases List.mem_map.1 hs with ⟨r, _, rfl⟩
      rfl
    · simp only [search_song, if_pos hl] at h
      cases h

/-- Witness for C8: on a record whose enrichment fails the stripped
result is unchanged and the returned summary carries `none`. -/
theorem search_enrichment_never_propagates_witness :
    Except.map (List.map stripThumb)
        (search_song (fun _ => some "T") (some [⟨some "W", some "I", none⟩]) 1)
      = Except.map (List.map stripThumb)
        (search_song (fun _ => none) (some [⟨some "W", some "I", none⟩]) 1)
      ∧ (("W", "I", "", (none : Option String)) : Summary).2.2.2 = none := by
  refine ⟨search_enrichment_never_propagates.2.2.1 (fun _ => some "T") (fun _ => none)
    (some [⟨some "W", some "I", none⟩]) 1, ?_⟩
  exact search_enrichment_never_propagates.2.2.2 (some [⟨some "W", some "I", none⟩]) 1
    [("W", "I", "", none)] rfl ("W", "I", "", none) (by decide)

/-! ### C10: lemmas about occurrence removal -/

theorem isPrefixOf_length_le :
    ∀ p l : List Char, List.isPrefixOf p l = true → p.length ≤ l.length := by
  intro p
  induction p with
  | nil => intro l _; simp
  | cons x xs ih =>
    intro l h
    cases l with
    | nil => exact absurd h (by simp [List.isPrefixOf])
    | cons y ys =>
      have hsplit : (x == y && List.isPrefixOf xs ys) = true := h
      rw [Bool.and_eq_true] at hsplit
      have h2 : List.isPrefixOf xs ys = true := hsplit.2
      have := ih ys h2
      simp only [List.length_cons]
      omega

theorem isPrefixOf_append_self :
    ∀ p t : List Char, List.isPrefixOf p (p ++ t) = true := by
  intro p t
  induction p with
  | nil => simp
  | cons x xs ih =>
    have : List.isPrefixOf (x :: xs) ((x :: xs) ++ t)
        = (x == x && List.isPrefixOf xs (xs ++ t)) := rfl
    simp [this, ih]

/-- Unfolding step of the removal scan on a nonempty input. -/
theorem removeAllFuel_cons (pat : List Char) (fuel : Nat) (c : Char) (cs : List Char) :
    removeAllFuel pat (fuel + 1) (c :: cs)
      = if List.isPrefixOf pat (c :: cs) = true ∧ pat ≠ [] then
          removeAllFuel pat fuel (List.drop pat.length (c :: cs))
        else c :: removeAllFuel pat fuel cs := rfl

/-- Each removal deletes exactly one copy of the pattern: the output
length differs from the input length by a multiple of the pattern
length. -/
theorem removeAllFuel_count (pat : List Char) :
    ∀ (fuel : Nat) (s : List Char), s.length ≤ fuel →
      ∃ k, (removeAllFuel pat fuel s).length + k * pat.length = s.length := by
  intro fuel
  induction fuel with
  | zero =>
    intro s hs
    have hs0 : s = [] := List.length_eq_zero.1 (Nat.le_zero.1 hs)
    subst hs0
    exact ⟨0, by simp [removeAllFuel]⟩
  | succ fuel ih =>
    intro s hs
    cases s with
    | nil => exact ⟨0, by simp [removeAllFuel]⟩
    | cons c cs =>
      by_cases h : List.isPrefixOf pat (c :: cs) = true ∧ pat ≠ []
      · have hstep : removeAllFuel pat (fuel + 1) (c :: cs)
            = removeAllFuel pat fuel (List.drop pat.length (c :: cs)) := by
          rw [removeAllFuel_cons, if_pos h]
        have hplen : 1 ≤ pat.length := by
          cases hp : pat with
          | nil => exact absurd hp h.2
          | cons _ _ => simp
        have hple : pat.length ≤ (c :: cs).length := isPrefixOf_length_le pat (c :: cs) h.1
        have hfuel2 : (List.drop pat.length (c :: cs)).length ≤ fuel := by
          simp only [List.length_drop, List.length_cons] at hs hple ⊢
          omega
        obtain ⟨k, hk⟩ := ih _ hfuel2
        refine ⟨k + 1, ?_⟩
        rw [hstep]
        have hmul : (k + 1) * pat.length = k * pat.length + pat.length := by ring
        simp only [List.length_drop, List.length_cons] at hk hple ⊢
        omega
      · have hstep : removeAllFuel pat (fuel + 1) (c :: cs)
            = c :: removeAllFuel pat fuel cs := by
          rw [removeAllFuel_cons, if_neg h]
        have hfuel2 : cs.length ≤ fuel := by
          simp only [List.length_cons] at hs
          omega
        obtain ⟨k, hk⟩ := ih cs hfuel2
        refine ⟨k, ?_⟩
        rw [hstep]
        simp only [List.length_cons]
        omega

theorem removeAllFuel_length_le (pat : List Char) (fuel : Nat) (s : List Char)
    (hs : s.length ≤ fuel) : (removeAllFuel pat fuel s).length ≤ s.length := by
  obtain ⟨k, hk⟩ := removeAllFuel_count pat fuel s hs
  omega

/-- If the pattern occurs in the input at all, at least one removal
happens, so the output is strictly shorter. -/
theorem removeAllFuel_length_lt (pat : List Char) (hpat : pat ≠ []) :
    ∀ (fuel : Nat) (s : List Char), s.length ≤ fuel →
      (∃ s1 t1, s1 ++ pat ++ t1 = s) →
      (removeAllFuel pat fuel s).length < s.length := by
  intro fuel
  induction fuel with
  | zero =>
    intro s hs hocc
    obtain ⟨s1, t1, he⟩ := hocc
    have hlen := congrArg List.length he
    simp only [List.length_append] at hlen
    have hs0 : s.length = 0 := Nat.le_zero.1 hs
    exact absurd (List.length_eq_zero.1 (by omega)) hpat
  | succ fuel ih =>
    intro s hs hocc
    cases s with
    | nil =>
      obtain ⟨s1, t1, he⟩ := hocc
      have hlen := congrArg List.length he
      simp only [List.length_append, List.length_nil] at hlen
      exact absurd (List.length_eq_zero.1 (by omega)) hpat
    | cons c cs =>
      by_cases h : List.isPrefixOf pat (c :: cs) = true ∧ pat ≠ []
      · have hstep : removeAllFuel pat (fuel + 1) (c :: cs)
            = removeAllFuel pat fuel (List.drop pat.length (c :: cs)) := by
          rw [removeAllFuel_cons, if_pos h]
        have hplen : 1 ≤ pat.length := by
          cases hp : pat with
          | nil => exact absurd hp hpat
          | cons _ _ => simp
        have hple : pat.length ≤ (c :: cs).length := isPrefixOf_length_le pat (c :: cs) h.1
        have hfuel2 : (List.drop pat.length (c :: cs)).length ≤ fuel := by
          simp only [List.length_drop, List.length_cons] at hs hple ⊢
          omega
        have hle := removeAllFuel_length_le pat fuel _ hfuel2
        rw [hstep]
        simp only [List.length_drop, List.length_cons] at hle hple ⊢
        omega
      · have hstep : removeAllFuel pat (fuel + 1) (c :: cs)
            = c :: removeAllFuel pat fuel cs := by
          rw [removeAllFuel_cons, if_neg h]
        obtain ⟨s1, t1, he⟩ := hocc
        have hocc2 : ∃ s2 t2, s2 ++ pat ++ t2 = cs := by
          cases s1 with
          | nil =>
            exfalso
            apply h
            refine ⟨?_, hpat⟩
            simp only [List.nil_append] at he
            rw [← he]
            exact isPrefixOf_append_self pat t1
          | cons a as =>
            refine ⟨as, t1, ?_⟩
            have he2 : a :: (as ++ pat ++ t1) = c :: cs := by
              simpa using he
            exact (List.cons.injEq _ _ _ _ ▸ he2).2
        have hfuel2 : cs.length ≤ fuel := by
          simp only [List.length_cons] at hs
          omega
        have hlt := ih cs hfuel2 hocc2
        rw [hstep]
        simp only [List.length_cons]
        omega

theorem removeAll_count (pat s : List Char) :
    ∃ k, (removeAll pat s).length + k * pat.length = s.length :=
  removeAllFuel_count pat s.length s (le_refl _)

theorem removeAll_length_lt (pat : List Char) (hpat : pat ≠ []) (s : List Char)
    (hocc : ∃ s1 t1, s1 ++ pat ++ t1 = s) :
    (removeAll pat s).length < s.length :=
  removeAllFuel_length_lt pat hpat s.length s (le_refl _) hocc

/-- Claim C10: a protocol-relative `src` is returned as `https:` prepended
to it with all resize-suffix occurrences removed, any other `src` with
its resize-suffix occurrences removed; whenever either transformation
applies (protocol-relative input, or an occurring resize suffix) the
returned value differs from the raw attribute text. -/
theorem thumbnail_url_normalization :
    (∀ u : String, pyStartsWith "//" u = true →
        get_thumbnail_url (.page (some u))
            = some (String.mk (removeAll dimsPat.toList ("https:" ++ u).toList))
          ∧ get_thumbnail_url (.page (some u)) ≠ some u)
      ∧ (∀ u : String, pyStartsWith "//" u = false →
          get_thumbnail_url (.page (some u))
              = some (String.mk (removeAll dimsPat.toList u.toList))
            ∧ ((∃ s1 t1, s1 ++ dimsPat.toList ++ t1 = u.toList) →
                get_thumbnail_url (.page (some u)) ≠ some u)) := by
  have hplen : dimsPat.toList.length = 19 := by decide
  have hpne : dimsPat.toList ≠ [] := by decide
  constructor
  · intro u hs
    have heq : get_thumbnail_url (.page (some u))
        = some (String.mk (removeAll dimsPat.toList ("https:" ++ u).toList)) := by
      simp [get_thumbnail_url, normalize_img_url, hs]
    refine ⟨heq, ?_⟩
    intro hbad
    rw [heq] at hbad
    have hdata : removeAll dimsPat.toList ("https:" ++ u).toList = u.data :=
      congrArg String.data (Option.some.inj hbad)
    have hlenL : ("https:" ++ u).toList.length = 6 + u.data.length := by
      rw [show ("https:" ++ u).toList = "https:".toList ++ u.toList from rfl,
        List.length_append]
      rw [show ("https:".toList).length = 6 from by decide]
      rfl
    obtain ⟨k, hk⟩ := removeAll_count dimsPat.toList ("https:" ++ u).toList
    rw [hdata, hplen, hlenL] at hk
    omega
  · intro u hs
    have heq : get_thumbnail_url (.page (some u))
        = some (String.mk (removeAll dimsPat.toList u.toList)) := by
      simp [get_thumbnail_url, normalize_img_url, hs]
    refine ⟨heq, ?_⟩
    intro hocc hbad
    rw [heq] at hbad
    have hdata : removeAll dimsPat.toList u.toList = u.data :=
      congrArg String.data (Option.some.inj hbad)
    have hlt := removeAll_length_lt dimsPat.toList hpne u.toList hocc
    rw [hdata] at hlt
    exact lt_irrefl _ hlt

/-- Witness for C10: a protocol-relative genie URL and a plain URL,
both carrying the resize suffix, are both rewritten and neither is
returned raw; the first computes to the literal `https://a`. -/
theorem thumbnail_url_normalization_witness :
    get_thumbnail_url (.page (some "//a/dims/resize/Q_80,0"))
        = some (String.mk (removeAll dimsPat.toList
            ("https:" ++ "//a/dims/resize/Q_80,0").toList))
      ∧ get_thumbnail_url (.page (some "//a/dims/resize/Q_80,0"))
          ≠ some "//a/dims/resize/Q_80,0"
      ∧ get_thumbnail_url (.page (some "http://x/dims/resize/Q_80,0"))
          = some (String.mk (removeAll dimsPat.toList "http://x/dims/resize/Q_80,0".toList))
      ∧ get_thumbnail_url (.page (some "http://x/dims/resize/Q_80,0"))
          ≠ some "http://x/dims/resize/Q_80,0"
      ∧ get_thumbnail_url (.page (some "//a/dims/resize/Q_80,0")) = some "https://a" := by
  have h1 := thumbnail_url_normalization.1 "//a/dims/resize/Q_80,0" (by decide)
  have h2 := thumbnail_url_normalization.2 "http://x/dims/resize/Q_80,0" (by decide)
  exact ⟨h1.1, h1.2, h2.1, h2.2 ⟨"http://x".toList, [], by decide⟩, by decide⟩

end GenieAPI
